import Mathlib

/-!
Verification development for the robot lifecycle orchestrator (`lib/robot.js`).

The controller ("Robot") owns insertion-ordered maps of connection handles and
device handles, a command table, and a work routine.  Its lifecycle is driven
by continuation-passing callbacks: `start` runs a two-phase barrier
(connections, then devices) and `halt` reverses it.  We embed the orchestrator
shallowly: the single-threaded cooperative scheduler becomes an explicit state
machine with a FIFO queue of pending asynchronous completions, and adapter or
driver calls are abstracted by a behaviour datatype (they are external
collaborators).  The async join helpers (`series` / `parallel`), the
`makeUnique` renaming utility and the `initializer` factory live outside the
orchestrator source, so they are modelled from the specification, as marked.
-/

namespace Cylon

/-- Errors reported through callbacks; JS error values are abstracted to strings. -/
abbrev Err := String

/-- Modelled from the spec: behaviour of an external adaptor or driver call
(`connect` / `disconnect` / `start` / `halt`).  Each such call either invokes
its completion callback synchronously (with or without an error), schedules it
for a later tick, throws synchronously, or never calls back. -/
inductive Beh
  | syncOk
  | syncErr (e : Err)
  | asyncOk
  | asyncErr (e : Err)
  | throws (e : Err)
  | never
deriving DecidableEq, Repr

/-- A connection handle: wraps one adaptor, tracking identity and the optimistic
`connected` flag (`lib/robot.js`, connection handling). -/
structure Conn where
  name : String
  connected : Bool
  host : Option String
  port : Option String
  connectBeh : Beh
  disconnectBeh : Beh
deriving DecidableEq, Repr

/-- A device handle: wraps one driver; `connection` is the reference (by name)
to the owning connection handle, `none` when the reference is dangling
(`lib/robot.js`, device handling). -/
structure Device where
  name : String
  connection : Option String
  started : Bool
  pin : Option Nat
  startBeh : Beh
  haltBeh : Beh
deriving DecidableEq, Repr

/-- The value stored when a handle is assigned as a direct controller property
(`this[connection.name] = connection` in `startConnection`,
`this[device.name] = device` in `startDevice`). -/
inductive PropV
  | connHandle (n : String)
  | devHandle (n : String)
deriving DecidableEq, Repr

/-- Observable events of one controller: log lines, event-channel emissions,
adapter/driver invocations and callback firings. -/
inductive Ev
  | log (s : String)
  | sigint
  | connectCalled (n : String)
  | deviceStartCalled (n : String)
  | deviceHaltCalled (n : String)
  | disconnectCalled (n : String)
  | emitReady
  | workInvoked
  | emitError (e : Err)
  | errorHandlerCalled (e : Err)
  | startCallback (err : Option Err)
  | haltCallback
deriving DecidableEq, Repr

/-- Controller state (`Robot` in `lib/robot.js`): name, the `running` flag, the
insertion-ordered connection and device maps, dynamically assigned properties,
and the error surface (whether `this.error` is a callable, and how many
listeners are registered on the `error` event). -/
structure Robot where
  name : String
  running : Bool
  connections : List Conn
  devices : List Device
  props : List (String × PropV)
  hasErrorHandler : Bool
  errorListenerCount : Nat
deriving DecidableEq, Repr

/-- Decimal digit character, `0` to `9`. -/
def digitChar (d : Nat) : Char := Char.ofNat (48 + d)

/-- Decimal digit list of a natural number, most significant first. -/
def natDigits (n : Nat) : List Char :=
  if _h : n < 10 then [digitChar n]
  else natDigits (n / 10) ++ [digitChar (n % 10)]
decreasing_by
  exact Nat.div_lt_self (by omega) (by omega)

/-- Decimal rendering of a natural number (the `+ i` string coercion used when
generating unique name suffixes and pin log text). -/
def natToStr (n : Nat) : String := String.mk (natDigits n)

/-- Value of a digit-character list read back as a decimal number. -/
def digitsVal (l : List Char) : Nat :=
  l.foldl (fun a c => 10 * a + (c.toNat - 48)) 0

/-- The candidate name obtained by appending the dashed integer suffix `k`. -/
def suffixName (base : String) (k : Nat) : String :=
  base ++ "-" ++ natToStr k

/-- Bounded search for the first free suffixed name, starting at suffix `k`. -/
def makeUniqueGo (base : String) (used : List String) : Nat → Nat → String
  | k, 0 => suffixName base k
  | k, fuel + 1 =>
    if suffixName base k ∈ used then makeUniqueGo base used (k + 1) fuel
    else suffixName base k

/-- Modelled from the spec: `Utils.makeUnique` (the naming utility is not part
of the orchestrator source).  On collision it appends `-1`, `-2`, and so on to
the original name until no collision remains; a free suffix always exists among
the first `used.length + 1` candidates. -/
def makeUnique (base : String) (used : List String) : String :=
  makeUniqueGo base used 1 (used.length + 1)

/-- Registration-time options for a connection.  Modelled from the spec: the
`initializer` factory wraps the spec into a handle exposing
`connect`/`disconnect`; identifying fields `host`/`port` are carried along. -/
structure ConnSpec where
  host : Option String
  port : Option String
  connectBeh : Beh
  disconnectBeh : Beh
deriving DecidableEq, Repr

/-- Registration-time options for a device.  Modelled from the spec: the
`initializer` factory wraps the spec into a handle exposing `start`/`halt`;
`connection` optionally names the owning connection, `pin` is carried along. -/
structure DeviceSpec where
  connection : Option String
  pin : Option Nat
  startBeh : Beh
  haltBeh : Beh
deriving DecidableEq, Repr

/-- Names of the connection map, in insertion order. -/
def connKeys (r : Robot) : List String := r.connections.map Conn.name

/-- Names of the device map, in insertion order. -/
def devKeys (r : Robot) : List String := r.devices.map Device.name

/-- Connection lookup by name. -/
def lookupConn (n : String) (r : Robot) : Option Conn :=
  r.connections.find? (fun c => c.name = n)

/-- Device lookup by name. -/
def lookupDev (n : String) (r : Robot) : Option Device :=
  r.devices.find? (fun d => d.name = n)

/-- `Robot.prototype.connection`: attach identity, resolve a name collision via
the unique-suffix rename (logging it), then initialize the handle and store it
in the connection map. -/
def connection (nm : String) (spec : ConnSpec) (r : Robot) : Robot × List Ev :=
  let collide := nm ∈ connKeys r
  let finalName := if collide then makeUnique nm (connKeys r) else nm
  let evs :=
    if collide then
      [Ev.log ("Connection names must be unique.Renaming " ++ nm ++ " to " ++ finalName)]
    else []
  let c : Conn := ⟨finalName, false, spec.host, spec.port, spec.connectBeh, spec.disconnectBeh⟩
  ({ r with connections := r.connections ++ [c] }, evs)

/-- `Robot.prototype.device`: attach identity, resolve a name collision via the
unique-suffix rename (logging it), then resolve the connection reference — a
named connection must exist (otherwise the missing-connection line is logged
and `SIGINT` is emitted on the process, and the reference dangles), and an
unnamed device binds to the first connection in insertion order, if any.  The
handle is then initialized and stored in the device map. -/
def device (nm : String) (spec : DeviceSpec) (r : Robot) : Robot × List Ev :=
  let collide := nm ∈ devKeys r
  let finalName := if collide then makeUnique nm (devKeys r) else nm
  let renameEvs :=
    if collide then
      [Ev.log ("Device names must be unique.Renaming " ++ nm ++ " to " ++ finalName)]
    else []
  let resolved :=
    match spec.connection with
    | some cn =>
      if (lookupConn cn r).isNone then
        ((none : Option String),
         [Ev.log ("No connection found with the name " ++ cn ++ ".\n"), Ev.sigint])
      else (some cn, [])
    | none => ((r.connections.head?).map Conn.name, [])
  let d : Device := ⟨finalName, resolved.1, false, spec.pin, spec.startBeh, spec.haltBeh⟩
  ({ r with devices := r.devices ++ [d] }, renameEvs ++ resolved.2)

/-- Kind of value held at a top-level configuration key. -/
inductive OptVal
  | callable
  | scalar
deriving DecidableEq, Repr

/-- A non-null `commands` configuration value.  The constructor uses two
different guards on it: the auto-add of callable keys is suppressed whenever
the value is non-null (`opts.commands == null`), while the replacement block
runs only when it is truthy (`if (opts.commands)`).  So a falsy non-null value
(such as `0`, `false` or the empty string) suppresses the auto-add yet neither
replaces the table nor throws; a truthy mapping (or a callable returning one)
replaces the table; a truthy value that is not a mapping — or a callable
returning something that is not a mapping — throws. -/
inductive CmdsSpec
  | falsy
  | obj (m : List (String × OptVal))
  | viaFn (m : List (String × OptVal))
  | invalid
deriving DecidableEq, Repr

/-- Property names already defined on a freshly initialized controller when the
constructor walks the remaining configuration keys: the state fields set by
`initRobot` plus the auto-bound prototype methods (including the inherited
event-emitter surface). -/
def reservedNames : List String :=
  ["name", "running", "connections", "devices", "work", "commands",
   "toJSON", "connection", "initRobot", "device", "start", "startWork",
   "startConnections", "startConnection", "removeConnection", "startDevices",
   "startDevice", "removeDevice", "createNewDevice", "deleteDevice", "halt",
   "toString", "log",
   "setMaxListeners", "getMaxListeners", "emit", "addListener", "on", "once",
   "removeListener", "removeAllListeners", "listeners", "listenerCount",
   "prependListener", "prependOnceListener", "eventNames"]

/-- One step of the constructor loop over configuration keys: skip keys already
defined on the controller, otherwise record the key as defined and, when the
value is callable and no explicit `commands` value was supplied, add it to the
command table. -/
def ctorStep (explicit : Bool) :
    List String × List String → String × OptVal → List String × List String
  | (defined, cmds), (n, v) =>
    if n ∈ defined then (defined, cmds)
    else
      (n :: defined,
       if v = OptVal.callable ∧ ¬explicit then cmds ++ [n] else cmds)

/-- Command names of a constructed controller, as enumerated by
`toJSON().commands` (`Object.keys(this.commands)`): with no `commands` value
(null or absent), the callable configuration keys picked up by the constructor
loop; with a falsy non-null value, the auto-add is suppressed but nothing is
replaced or thrown, so the table stays empty; with a truthy mapping (or a
callable returning one), exactly that mapping's keys; `none` when the value is
truthy but no mapping comes out of it (construction throws). -/
def ctorCommands (pairs : List (String × OptVal)) (cmds : Option CmdsSpec) :
    Option (List String) :=
  let auto := (pairs.foldl (ctorStep cmds.isSome) (reservedNames, [])).2
  match cmds with
  | none => some auto
  | some CmdsSpec.falsy => some []
  | some (CmdsSpec.obj m) => some (m.map Prod.fst)
  | some (CmdsSpec.viaFn m) => some (m.map Prod.fst)
  | some CmdsSpec.invalid => none

/-- Modelled from the spec: the join state of one `parallel` barrier — all
units are invoked, the barrier completes when all of them have called back, and
the first reported error (if any) is the phase result. -/
structure JoinSt where
  total : Nat
  completed : Nat
  firstErr : Option Err
deriving DecidableEq, Repr

/-- What the callback given to `halt` does when the halt barriers complete: the
user-supplied callback, the implicit no-op, or the error-path closure built
inside `start` (which invokes the local error handler and dispatches the
`error` event). -/
inductive HaltCtx
  | user
  | noop
  | fromStart (e : Err)
deriving DecidableEq, Repr

/-- A pending asynchronous completion sitting in the cooperative scheduler's
queue: an adaptor/driver call that will invoke its callback on a later tick. -/
inductive Task
  | connDone (err : Option Err)
  | devDone (err : Option Err)
  | haltDevDone
  | haltConnDone
deriving DecidableEq, Repr

/-- Full machine state: the controller, its observable trace, the queue of
pending asynchronous completions, the join state of each possible in-flight
barrier, the halt-callback context, whether a callback was passed to `start`,
and whether an uncaught exception escaped to the top level. -/
structure M where
  robot : Robot
  trace : List Ev
  pending : List Task
  connJoin : JoinSt
  devJoin : JoinSt
  haltDevJoin : JoinSt
  haltConnJoin : JoinSt
  haltCtx : HaltCtx
  startCbPresent : Bool
  crashed : Option Err
deriving DecidableEq, Repr

/-- Outcome of a synchronous execution extent: normal completion, or a
synchronous JS exception propagating with the state reached so far. -/
inductive Step
  | ok (m : M)
  | ex (e : Err) (m : M)
deriving DecidableEq, Repr

/-- Sequencing of synchronous extents: an exception aborts the rest. -/
def Step.bind : Step → (M → Step) → Step
  | Step.ok m, f => f m
  | Step.ex e m, _ => Step.ex e m

/-- The state carried by a step outcome. -/
def Step.state : Step → M
  | Step.ok m => m
  | Step.ex _ m => m

/-- Append an observable event to the trace. -/
def pushEv (e : Ev) (m : M) : M := { m with trace := m.trace ++ [e] }

/-- Enqueue an asynchronous completion. -/
def pushTask (t : Task) (m : M) : M := { m with pending := m.pending ++ [t] }

/-- Assign `this[n] = v`, overwriting any previous binding of that name. -/
def putProp (n : String) (v : PropV) : List (String × PropV) → List (String × PropV)
  | [] => [(n, v)]
  | (k, w) :: rest => if k = n then (n, v) :: rest else (k, w) :: putProp n v rest

/-- Read the dynamic property bound to `n`, if any. -/
def lookupProp (n : String) : List (String × PropV) → Option PropV
  | [] => none
  | (k, w) :: rest => if k = n then some w else lookupProp n rest

/-- Store a dynamic property on the controller. -/
def setProp (n : String) (v : PropV) (m : M) : M :=
  { m with robot := { m.robot with props := putProp n v m.robot.props } }

/-- Mark the named connection handle as connected (the optimistic flag set
right after its `connect` call is invoked). -/
def setConnConnected (n : String) (m : M) : M :=
  { m with robot := { m.robot with
      connections := m.robot.connections.map
        (fun c => if c.name = n then { c with connected := true } else c) } }

/-- Mark the named device handle as started (the optimistic flag set right
after its `start` call is invoked). -/
def setDevStarted (n : String) (m : M) : M :=
  { m with robot := { m.robot with
      devices := m.robot.devices.map
        (fun d => if d.name = n then { d with started := true } else d) } }

/-- Set `running := false` (the unconditional final assignment of `halt`). -/
def setRunningFalse (m : M) : M :=
  { m with robot := { m.robot with running := false } }

/-- The events appended when the halt callback runs: nothing for the implicit
no-op, the callback firing for a user callback, and — for the error-path
closure built inside `start` — the local error handler invocation (when the
controller defines a callable one) followed by the `error` event dispatch
(when listeners are registered). -/
def haltCbEvents (ctx : HaltCtx) (r : Robot) : List Ev :=
  match ctx with
  | HaltCtx.noop => []
  | HaltCtx.user => [Ev.haltCallback]
  | HaltCtx.fromStart e =>
    (if r.hasErrorHandler then [Ev.errorHandlerCalled e] else []) ++
    (if r.errorListenerCount > 0 then [Ev.emitError e] else [])

/-- Run the callback handed to `halt` once both halt barriers complete. -/
def runHaltCb (ctx : HaltCtx) (m : M) : M :=
  { m with trace := m.trace ++ haltCbEvents ctx m.robot }

/-- The callback of one connection-disconnect unit reaching the halt join; the
per-unit wrapper forces a success report, so no error is recorded.  When all
units have called back, the original halt callback runs. -/
def haltConnJoinCb (m : M) : M :=
  let j := m.haltConnJoin
  let m := { m with haltConnJoin := ⟨j.total, j.completed + 1, j.firstErr⟩ }
  if m.haltConnJoin.completed = m.haltConnJoin.total then runHaltCb m.haltCtx m
  else m

/-- One connection-disconnect unit of `halt`: invoke `disconnect`; a reported
error is swallowed by the wrapper, a synchronous throw propagates. -/
def haltConnUnit (c : Conn) (m : M) : Step :=
  let m := pushEv (Ev.disconnectCalled c.name) m
  match c.disconnectBeh with
  | Beh.syncOk => Step.ok (haltConnJoinCb m)
  | Beh.syncErr _ => Step.ok (haltConnJoinCb m)
  | Beh.asyncOk => Step.ok (pushTask Task.haltConnDone m)
  | Beh.asyncErr _ => Step.ok (pushTask Task.haltConnDone m)
  | Beh.throws e => Step.ex e m
  | Beh.never => Step.ok m

/-- Invoke every connection-disconnect unit in insertion order; a synchronous
throw aborts the remaining invocations. -/
def runHaltConnUnits : List Conn → M → Step
  | [], m => Step.ok m
  | c :: rest, m => (haltConnUnit c m).bind (runHaltConnUnits rest)

/-- The connection phase of `halt`: a fresh join over all disconnect units; an
empty fan-out completes immediately. -/
def haltConnsPhase (m : M) : Step :=
  let cs := m.robot.connections
  let m := { m with haltConnJoin := ⟨cs.length, 0, none⟩ }
  if cs.length = 0 then Step.ok (runHaltCb m.haltCtx m)
  else runHaltConnUnits cs m

/-- The callback of one device-halt unit reaching the halt join; the per-unit
wrapper forces a success report.  When all units have called back, the
connection phase starts. -/
def haltDevJoinCb (m : M) : Step :=
  let j := m.haltDevJoin
  let m := { m with haltDevJoin := ⟨j.total, j.completed + 1, j.firstErr⟩ }
  if m.haltDevJoin.completed = m.haltDevJoin.total then haltConnsPhase m
  else Step.ok m

/-- One device-halt unit of `halt`: invoke the device's `halt`; a reported
error is swallowed by the wrapper, a synchronous throw propagates. -/
def haltDevUnit (d : Device) (m : M) : Step :=
  let m := pushEv (Ev.deviceHaltCalled d.name) m
  match d.haltBeh with
  | Beh.syncOk => haltDevJoinCb m
  | Beh.syncErr _ => haltDevJoinCb m
  | Beh.asyncOk => Step.ok (pushTask Task.haltDevDone m)
  | Beh.asyncErr _ => Step.ok (pushTask Task.haltDevDone m)
  | Beh.throws e => Step.ex e m
  | Beh.never => Step.ok m

/-- Invoke every device-halt unit in insertion order; a synchronous throw
aborts the remaining invocations. -/
def runHaltDevUnits : List Device → M → Step
  | [], m => Step.ok m
  | d :: rest, m => (haltDevUnit d m).bind (runHaltDevUnits rest)

/-- The device phase of `halt`: a fresh join over all device-halt units; an
empty fan-out completes immediately and moves on to the connection phase. -/
def haltDevsPhase (m : M) : Step :=
  let ds := m.robot.devices
  let m := { m with haltDevJoin := ⟨ds.length, 0, none⟩ }
  if ds.length = 0 then haltConnsPhase m
  else runHaltDevUnits ds m

/-- `Robot.prototype.halt`: a no-op invoking the callback immediately when not
running; otherwise devices halt first, then connections disconnect, each unit
wrapped to report success; a synchronous throw escaping the join machinery is
caught and logged; `running` is set to false unconditionally at the end. -/
def halt (ctx : HaltCtx) (m : M) : M :=
  if m.robot.running then
    let m := { m with haltCtx := ctx }
    match haltDevsPhase m with
    | Step.ok m1 => setRunningFalse m1
    | Step.ex e m1 =>
      setRunningFalse
        (pushEv (Ev.log e)
          (pushEv (Ev.log "An error occured while attempting to safely halt the robot") m1))
  else runHaltCb ctx m

/-- The tail of the start sequence once a phase error has been reported: log
the error, run the halt sequence with the error-path closure as its callback,
then invoke the original `start` callback (when one was provided) with the
error — the callback is invoked right after `halt` is initiated, not from
inside its completion callback. -/
def seriesFinish (err : Option Err) (m : M) : M :=
  let m :=
    match err with
    | some e =>
      halt (HaltCtx.fromStart e)
        (pushEv (Ev.log e)
          (pushEv (Ev.log "An error occured while trying to start the robot:") m))
    | none => m
  if m.startCbPresent then pushEv (Ev.startCallback err) m else m

/-- The callback of one device-start unit reaching the device-phase join;
modelled from the spec: the barrier completes when all units have called back,
with the first reported error as the phase result, which the series hands to
its final callback. -/
def devJoinCb (err : Option Err) (m : M) : Step :=
  let j := m.devJoin
  let fe := match j.firstErr with | some e => some e | none => err
  let m := { m with devJoin := ⟨j.total, j.completed + 1, fe⟩ }
  if m.devJoin.completed = m.devJoin.total then Step.ok (seriesFinish m.devJoin.firstErr m)
  else Step.ok m

/-- `Robot.prototype.startDevice` as one unit of the device phase: an
already-started device reports success immediately; otherwise log, assign the
handle as a controller property, invoke the driver's `start`, then set the
optimistic `started` flag. -/
def startDeviceUnit (d : Device) (m : M) : Step :=
  if d.started then devJoinCb none m
  else
    let pinPart := match d.pin with
      | some p => " on pin " ++ natToStr p
      | none => ""
    let m := pushEv (Ev.log ("Starting device " ++ d.name ++ pinPart ++ ".")) m
    let m := setProp d.name (PropV.devHandle d.name) m
    let m := pushEv (Ev.deviceStartCalled d.name) m
    (match d.startBeh with
     | Beh.syncOk => devJoinCb none m
     | Beh.syncErr e => devJoinCb (some e) m
     | Beh.asyncOk => Step.ok (pushTask (Task.devDone none) m)
     | Beh.asyncErr e => Step.ok (pushTask (Task.devDone (some e)) m)
     | Beh.throws e => Step.ex e m
     | Beh.never => Step.ok m).bind
      (fun m1 => Step.ok (setDevStarted d.name m1))

/-- Invoke every device-start unit in insertion order; a synchronous throw
aborts the remaining invocations. -/
def runDevUnits : List Device → M → Step
  | [], m => Step.ok m
  | d :: rest, m => (startDeviceUnit d m).bind (runDevUnits rest)

/-- `Robot.prototype.startDevices`: a fresh join over all device-start units;
an empty fan-out completes the phase immediately. -/
def startDevices (m : M) : Step :=
  let m := pushEv (Ev.log "Starting devices.") m
  let ds := m.robot.devices
  let m := { m with devJoin := ⟨ds.length, 0, none⟩ }
  if ds.length = 0 then Step.ok (seriesFinish none m)
  else runDevUnits ds m

/-- Modelled from the spec: the series chaining of the two start phases — on a
phase error the final callback receives it with partial results and the next
phase is skipped; on success the device phase starts only after the connection
barrier completed. -/
def seriesAfterConnections (err : Option Err) (m : M) : Step :=
  match err with
  | some e => Step.ok (seriesFinish (some e) m)
  | none => startDevices m

/-- The callback of one connection-connect unit reaching the connection-phase
join; modelled from the spec: the barrier completes when all units have called
back, with the first reported error as the phase result. -/
def connJoinCb (err : Option Err) (m : M) : Step :=
  let j := m.connJoin
  let fe := match j.firstErr with | some e => some e | none => err
  let m := { m with connJoin := ⟨j.total, j.completed + 1, fe⟩ }
  if m.connJoin.completed = m.connJoin.total then seriesAfterConnections m.connJoin.firstErr m
  else Step.ok m

/-- `Robot.prototype.startConnection` as one unit of the connection phase: an
already-connected connection reports success immediately; otherwise log,
assign the handle as a controller property, invoke the adaptor's `connect`,
then set the optimistic `connected` flag. -/
def startConnectionUnit (c : Conn) (m : M) : Step :=
  if c.connected then connJoinCb none m
  else
    let hostPart := match c.host with
      | some h => " on host " ++ h
      | none => match c.port with
        | some p => " on port " ++ p
        | none => ""
    let m := pushEv (Ev.log ("Starting connection " ++ c.name ++ hostPart ++ ".")) m
    let m := setProp c.name (PropV.connHandle c.name) m
    let m := pushEv (Ev.connectCalled c.name) m
    (match c.connectBeh with
     | Beh.syncOk => connJoinCb none m
     | Beh.syncErr e => connJoinCb (some e) m
     | Beh.asyncOk => Step.ok (pushTask (Task.connDone none) m)
     | Beh.asyncErr e => Step.ok (pushTask (Task.connDone (some e)) m)
     | Beh.throws e => Step.ex e m
     | Beh.never => Step.ok m).bind
      (fun m1 => Step.ok (setConnConnected c.name m1))

/-- Invoke every connection-connect unit in insertion order; a synchronous
throw aborts the remaining invocations. -/
def runConnUnits : List Conn → M → Step
  | [], m => Step.ok m
  | c :: rest, m => (startConnectionUnit c m).bind (runConnUnits rest)

/-- `Robot.prototype.startConnections`: a fresh join over all connection
units; an empty fan-out completes the phase immediately. -/
def startConnections (m : M) : Step :=
  let m := pushEv (Ev.log "Starting connections.") m
  let cs := m.robot.connections
  let m := { m with connJoin := ⟨cs.length, 0, none⟩ }
  if cs.length = 0 then seriesAfterConnections none m
  else runConnUnits cs m

/-- `Robot.prototype.startWork`: log, emit the `ready` event with the
controller as payload, invoke the work routine with the controller as both
argument and context, then mark the controller running. -/
def startWork (m : M) : M :=
  let m := pushEv (Ev.log "Working.") m
  let m := pushEv Ev.emitReady m
  let m := pushEv Ev.workInvoked m
  { m with robot := { m.robot with running := true } }

/-- `Robot.prototype.start`: a no-op when already running; otherwise kick off
the connection/device series and then — still synchronously, at the end of
`start` — invoke `startWork` when the work mode is the default `async` one. -/
def start (mode : String) (cbPresent : Bool) (m : M) : M :=
  if m.robot.running then m
  else
    let m := { m with startCbPresent := cbPresent }
    match startConnections m with
    | Step.ok m1 => if mode = "async" then startWork m1 else m1
    | Step.ex e m1 => { m1 with crashed := some e }

/-- Fire one pending asynchronous completion: the corresponding unit callback
reaches its join. -/
def runTask : Task → M → Step
  | Task.connDone err, m => connJoinCb err m
  | Task.devDone err, m => devJoinCb err m
  | Task.haltDevDone, m => haltDevJoinCb m
  | Task.haltConnDone, m => Step.ok (haltConnJoinCb m)

/-- The cooperative event loop: fire pending completions in FIFO order.  An
exception thrown from a tick is uncaught (nothing wraps the scheduler). -/
def eventLoop : Nat → M → M
  | 0, m => m
  | fuel + 1, m =>
    match m.pending with
    | [] => m
    | t :: rest =>
      match runTask t { m with pending := rest } with
      | Step.ok m1 => eventLoop fuel m1
      | Step.ex e m1 => { m1 with crashed := some e }

/-- A quiescent machine wrapped around a controller state. -/
def mkM (r : Robot) : M :=
  ⟨r, [], [], ⟨0, 0, none⟩, ⟨0, 0, none⟩, ⟨0, 0, none⟩, ⟨0, 0, none⟩,
   HaltCtx.noop, false, none⟩

/-- A device whose driver reports halt completion synchronously (with or
without an error). -/
def isSyncHalt (d : Device) : Bool :=
  match d.haltBeh with
  | Beh.syncOk => true
  | Beh.syncErr _ => true
  | _ => false

/-- A connection whose adaptor reports disconnect completion synchronously
(with or without an error). -/
def isSyncDisc (c : Conn) : Bool :=
  match c.disconnectBeh with
  | Beh.syncOk => true
  | Beh.syncErr _ => true
  | _ => false

/-- Scenario: one connection and one device, both completing asynchronously
and successfully, in the default `async` work mode. -/
def rScenAsync : Robot :=
  ⟨"bot", false,
   [⟨"c1", false, none, none, Beh.asyncOk, Beh.syncOk⟩],
   [⟨"d1", some "c1", false, none, Beh.asyncOk, Beh.syncOk⟩],
   [], true, 1⟩

/-- Scenario: a running controller with two devices whose halts are the
interesting part — the first throws synchronously, the second is well behaved. -/
def rScenThrow : Robot :=
  ⟨"bot", true,
   [⟨"c1", true, none, none, Beh.syncOk, Beh.syncOk⟩],
   [⟨"d1", some "c1", true, none, Beh.syncOk, Beh.throws "boom"⟩,
    ⟨"d2", some "c1", true, none, Beh.syncOk, Beh.syncOk⟩],
   [], false, 0⟩

/-- Scenario: the device phase fails asynchronously and the device's halt is
also asynchronous, so the halt sequence completes on a later tick. -/
def rScenErr : Robot :=
  ⟨"bot", false,
   [⟨"c1", false, none, none, Beh.asyncOk, Beh.syncOk⟩],
   [⟨"d1", some "c1", false, none, Beh.asyncErr "efail", Beh.asyncOk⟩],
   [], true, 1⟩

/-- Scenario: a controller with one connection, used for registration claims. -/
def rScenReg : Robot :=
  ⟨"bot", false,
   [⟨"a", false, none, none, Beh.syncOk, Beh.syncOk⟩],
   [⟨"d", some "a", false, none, Beh.syncOk, Beh.syncOk⟩],
   [], false, 0⟩

/-- Scenario: a running controller with everything synchronous. -/
def rScenSync : Robot :=
  ⟨"bot", true,
   [⟨"c1", true, none, none, Beh.syncOk, Beh.syncErr "dfail"⟩],
   [⟨"d1", some "c1", true, none, Beh.syncOk, Beh.syncErr "hfail"⟩,
    ⟨"d2", some "c1", true, none, Beh.syncOk, Beh.syncOk⟩],
   [], true, 1⟩

theorem digitChar_toNat : ∀ d, d < 10 → (digitChar d).toNat = 48 + d := by
  decide

theorem digitsVal_append (l : List Char) (c : Char) :
    digitsVal (l ++ [c]) = 10 * digitsVal l + (c.toNat - 48) := by
  simp [digitsVal, List.foldl_append]

theorem digitsVal_natDigits (n : Nat) : digitsVal (natDigits n) = n := by
  induction n using Nat.strong_induction_on with
  | _ n ih =>
    rw [natDigits]
    split
    · next h =>
      simp only [digitsVal, List.foldl_cons, List.foldl_nil, digitChar_toNat n h]
      omega
    · next h =>
      rw [digitsVal_append, ih (n / 10) (Nat.div_lt_self (by omega) (by omega)),
        digitChar_toNat (n % 10) (Nat.mod_lt _ (by omega))]
      omega

theorem natToStr_inj {a b : Nat} (h : natToStr a = natToStr b) : a = b := by
  have hd : natDigits a = natDigits b := congrArg String.data h
  calc a = digitsVal (natDigits a) := (digitsVal_natDigits a).symm
    _ = digitsVal (natDigits b) := by rw [hd]
    _ = b := digitsVal_natDigits b

theorem suffixName_inj (base : String) {k1 k2 : Nat}
    (h : suffixName base k1 = suffixName base k2) : k1 = k2 := by
  apply natToStr_inj
  apply String.ext
  have hd := congrArg String.data h
  simp only [suffixName, String.data_append, List.append_assoc] at hd
  exact List.append_cancel_left (List.append_cancel_left hd)

theorem exists_free_suffix (base : String) (used : List String) :
    ∃ k, 0 < k ∧ k ≤ used.length + 1 ∧ suffixName base k ∉ used := by
  by_contra hall
  push_neg at hall
  have hsub : ((List.range (used.length + 1)).map
      (fun i => suffixName base (i + 1))).toFinset ⊆ used.toFinset := by
    intro x hx
    simp only [List.mem_toFinset, List.mem_map, List.mem_range] at hx
    obtain ⟨i, hi, rfl⟩ := hx
    exact List.mem_toFinset.2 (hall (i + 1) (by omega) (by omega))
  have hnodup : ((List.range (used.length + 1)).map
      (fun i => suffixName base (i + 1))).Nodup := by
    refine List.Nodup.map ?_ (List.nodup_range _)
    intro i j hij
    have := suffixName_inj base hij
    omega
  have h1 : ((List.range (used.length + 1)).map
      (fun i => suffixName base (i + 1))).toFinset.card = used.length + 1 := by
    rw [List.toFinset_card_of_nodup hnodup]
    simp
  have h2 := Finset.card_le_card hsub
  have h3 := List.toFinset_card_le (l := used)
  omega

theorem makeUniqueGo_spec (base : String) (used : List String) :
    ∀ fuel k, (∃ j, k ≤ j ∧ j < k + fuel ∧ suffixName base j ∉ used) →
    ∃ j0, makeUniqueGo base used k fuel = suffixName base j0 ∧
      suffixName base j0 ∉ used ∧ k ≤ j0 ∧
      ∀ i, k ≤ i → i < j0 → suffixName base i ∈ used := by
  intro fuel
  induction fuel with
  | zero =>
    intro k ⟨j, hkj, hlt, _⟩
    omega
  | succ fuel ih =>
    intro k ⟨j, hkj, hlt, hfree⟩
    rw [makeUniqueGo]
    by_cases hk : suffixName base k ∈ used
    · rw [if_pos hk]
      have hne : j ≠ k := fun h => hfree (h ▸ hk)
      obtain ⟨j0, heq, hfree0, hle0, hmin⟩ :=
        ih (k + 1) ⟨j, by omega, by omega, hfree⟩
      refine ⟨j0, heq, hfree0, by omega, fun i hki hij0 => ?_⟩
      by_cases hik : i = k
      · exact hik ▸ hk
      · exact hmin i (by omega) hij0
    · rw [if_neg hk]
      exact ⟨k, rfl, hk, le_refl k, fun i h1 h2 => by omega⟩

theorem makeUnique_spec (base : String) (used : List String) :
    ∃ k, 0 < k ∧ makeUnique base used = suffixName base k ∧
      suffixName base k ∉ used ∧
      ∀ j, 0 < j → j < k → suffixName base j ∈ used := by
  obtain ⟨k, hk0, hkle, hkfree⟩ := exists_free_suffix base used
  obtain ⟨j0, heq, hfree, hle, hmin⟩ :=
    makeUniqueGo_spec base used (used.length + 1) 1 ⟨k, by omega, by omega, hkfree⟩
  exact ⟨j0, by omega, heq, hfree, fun j hj0 hjk => hmin j (by omega) hjk⟩

theorem lookupProp_putProp_self (n : String) (v : PropV) :
    ∀ l, lookupProp n (putProp n v l) = some v := by
  intro l
  induction l with
  | nil => simp [putProp, lookupProp]
  | cons p rest ih =>
    obtain ⟨k, w⟩ := p
    by_cases hk : k = n
    · simp [putProp, lookupProp, hk]
    · simp [putProp, lookupProp, hk, ih]

theorem lookupProp_putProp_ne {n k : String} (v : PropV) (hne : k ≠ n) :
    ∀ l, lookupProp n (putProp k v l) = lookupProp n l := by
  intro l
  induction l with
  | nil => simp [putProp, lookupProp, hne]
  | cons p rest ih =>
    obtain ⟨k2, w⟩ := p
    by_cases hk : k2 = k
    · simp [putProp, lookupProp, hk, hne]
    · simp only [putProp, lookupProp, if_neg hk]
      by_cases hk2 : k2 = n
      · simp [lookupProp, hk2]
      · simp [lookupProp, hk2, ih]

theorem robot_runHaltCb (ctx : HaltCtx) (m : M) :
    (runHaltCb ctx m).robot = m.robot := rfl

theorem robot_haltConnJoinCb (m : M) : (haltConnJoinCb m).robot = m.robot := by
  simp only [haltConnJoinCb]
  split <;> rfl

theorem robot_haltConnUnit (c : Conn) (m : M) :
    (haltConnUnit c m).state.robot = m.robot := by
  simp only [haltConnUnit]
  cases c.disconnectBeh with
  | syncOk => exact robot_haltConnJoinCb _
  | syncErr e => exact robot_haltConnJoinCb _
  | asyncOk => rfl
  | asyncErr e => rfl
  | throws e => rfl
  | never => rfl

theorem robot_runHaltConnUnits :
    ∀ (cs : List Conn) (m : M), (runHaltConnUnits cs m).state.robot = m.robot := by
  intro cs
  induction cs with
  | nil => intro m; rfl
  | cons c rest ih =>
    intro m
    have hc := robot_haltConnUnit c m
    simp only [runHaltConnUnits]
    cases h : haltConnUnit c m with
    | ok m1 =>
      rw [h] at hc
      simp only [Step.state] at hc
      simp only [Step.bind, ih m1, hc]
    | ex e m1 =>
      rw [h] at hc
      simpa [Step.bind, Step.state] using hc

theorem robot_haltConnsPhase (m : M) : (haltConnsPhase m).state.robot = m.robot := by
  simp only [haltConnsPhase]
  split
  · rfl
  · exact robot_runHaltConnUnits _ _

theorem robot_haltDevJoinCb (m : M) : (haltDevJoinCb m).state.robot = m.robot := by
  simp only [haltDevJoinCb]
  split
  · exact robot_haltConnsPhase _
  · rfl

theorem robot_haltDevUnit (d : Device) (m : M) :
    (haltDevUnit d m).state.robot = m.robot := by
  simp only [haltDevUnit]
  cases d.haltBeh with
  | syncOk => exact robot_haltDevJoinCb _
  | syncErr e => exact robot_haltDevJoinCb _
  | asyncOk => rfl
  | asyncErr e => rfl
  | throws e => rfl
  | never => rfl

theorem robot_runHaltDevUnits :
    ∀ (ds : List Device) (m : M), (runHaltDevUnits ds m).state.robot = m.robot := by
  intro ds
  induction ds with
  | nil => intro m; rfl
  | cons d rest ih =>
    intro m
    have hd := robot_haltDevUnit d m
    simp only [runHaltDevUnits]
    cases h : haltDevUnit d m with
    | ok m1 =>
      rw [h] at hd
      simp only [Step.state] at hd
      simp only [Step.bind, ih m1, hd]
    | ex e m1 =>
      rw [h] at hd
      simpa [Step.bind, Step.state] using hd

theorem robot_haltDevsPhase (m : M) : (haltDevsPhase m).state.robot = m.robot := by
  simp only [haltDevsPhase]
  split
  · exact robot_haltConnsPhase _
  · exact robot_runHaltDevUnits _ _

theorem robot_halt (ctx : HaltCtx) (m : M) :
    (halt ctx m).robot = { m.robot with running := false } := by
  simp only [halt]
  split
  · next hrun =>
    have hphase := robot_haltDevsPhase { m with haltCtx := ctx }
    cases h : haltDevsPhase { m with haltCtx := ctx } with
    | ok m1 =>
      rw [h] at hphase
      simp only [Step.state] at hphase
      simp [setRunningFalse, hphase]
    | ex e m1 =>
      rw [h] at hphase
      simp only [Step.state] at hphase
      simp [setRunningFalse, pushEv, hphase]
  · next hrun =>
    simp only [Bool.not_eq_true] at hrun
    rw [robot_runHaltCb]
    cases hr : m.robot
    simp_all

theorem haltConnUnit_sync (c : Conn) (m : M) (h : isSyncDisc c = true) :
    haltConnUnit c m =
      Step.ok (haltConnJoinCb (pushEv (Ev.disconnectCalled c.name) m)) := by
  cases hb : c.disconnectBeh with
  | syncOk => simp [haltConnUnit, hb]
  | syncErr e => simp [haltConnUnit, hb]
  | asyncOk => simp [isSyncDisc, hb] at h
  | asyncErr e => simp [isSyncDisc, hb] at h
  | throws e => simp [isSyncDisc, hb] at h
  | never => simp [isSyncDisc, hb] at h

theorem haltConnJoinCb_last (m : M)
    (h : m.haltConnJoin.completed + 1 = m.haltConnJoin.total) :
    haltConnJoinCb m = runHaltCb m.haltCtx
      { m with haltConnJoin :=
          ⟨m.haltConnJoin.total, m.haltConnJoin.completed + 1, m.haltConnJoin.firstErr⟩ } := by
  simp [haltConnJoinCb, h]

theorem haltConnJoinCb_mid (m : M)
    (h : ¬ m.haltConnJoin.completed + 1 = m.haltConnJoin.total) :
    haltConnJoinCb m =
      { m with haltConnJoin :=
          ⟨m.haltConnJoin.total, m.haltConnJoin.completed + 1, m.haltConnJoin.firstErr⟩ } := by
  simp [haltConnJoinCb, h]

theorem runHaltConnUnits_sync :
    ∀ (cs : List Conn) (m : M), (∀ c ∈ cs, isSyncDisc c = true) →
      m.haltConnJoin.total = m.haltConnJoin.completed + cs.length → cs ≠ [] →
      ∃ m1, runHaltConnUnits cs m = Step.ok m1 ∧ m1.robot = m.robot ∧
        m1.pending = m.pending ∧ m1.haltCtx = m.haltCtx ∧
        m1.startCbPresent = m.startCbPresent ∧
        m1.trace = m.trace ++ cs.map (fun c => Ev.disconnectCalled c.name) ++
          haltCbEvents m.haltCtx m.robot := by
  intro cs
  induction cs with
  | nil => intro m _ _ hne; exact absurd rfl hne
  | cons c rest ih =>
    intro m hsync htot _
    have hc := haltConnUnit_sync c m (hsync c (by simp))
    simp only [List.length_cons] at htot
    simp only [runHaltConnUnits, hc, Step.bind]
    by_cases hrest : rest = []
    · subst hrest
      simp only [List.length_nil] at htot
      have hlast : (pushEv (Ev.disconnectCalled c.name) m).haltConnJoin.completed + 1
          = (pushEv (Ev.disconnectCalled c.name) m).haltConnJoin.total := by
        show m.haltConnJoin.completed + 1 = m.haltConnJoin.total
        omega
      rw [haltConnJoinCb_last _ hlast]
      exact ⟨_, rfl, rfl, rfl, rfl, rfl, by simp [runHaltCb, pushEv]⟩
    · have hlen : rest.length ≠ 0 := fun h => hrest (List.eq_nil_of_length_eq_zero h)
      have hmid : ¬ (pushEv (Ev.disconnectCalled c.name) m).haltConnJoin.completed + 1
          = (pushEv (Ev.disconnectCalled c.name) m).haltConnJoin.total := by
        show ¬ m.haltConnJoin.completed + 1 = m.haltConnJoin.total
        omega
      rw [haltConnJoinCb_mid _ hmid]
      obtain ⟨m1, heq, hrob, hpend, hctx, hcb, htr⟩ :=
        ih { pushEv (Ev.disconnectCalled c.name) m with
              haltConnJoin := ⟨m.haltConnJoin.total, m.haltConnJoin.completed + 1,
                m.haltConnJoin.firstErr⟩ }
          (fun x hx => hsync x (by simp [hx]))
          (by
            show m.haltConnJoin.total = m.haltConnJoin.completed + 1 + rest.length
            omega)
          hrest
      refine ⟨m1, heq, hrob, hpend, hctx, hcb, ?_⟩
      rw [htr]
      show (pushEv (Ev.disconnectCalled c.name) m).trace ++ _ ++ _ = _
      simp [pushEv]

theorem haltConnsPhase_sync (m : M) (hc : ∀ c ∈ m.robot.connections, isSyncDisc c = true) :
    ∃ m1, haltConnsPhase m = Step.ok m1 ∧ m1.robot = m.robot ∧
      m1.pending = m.pending ∧ m1.haltCtx = m.haltCtx ∧
      m1.startCbPresent = m.startCbPresent ∧
      m1.trace = m.trace ++ m.robot.connections.map (fun c => Ev.disconnectCalled c.name) ++
        haltCbEvents m.haltCtx m.robot := by
  simp only [haltConnsPhase]
  by_cases hcs : m.robot.connections = []
  · rw [if_pos (by simp [hcs])]
    exact ⟨_, rfl, rfl, rfl, rfl, rfl, by simp [runHaltCb, hcs]⟩
  · have hlen : ¬ m.robot.connections.length = 0 :=
      fun h => hcs (List.eq_nil_of_length_eq_zero h)
    rw [if_neg hlen]
    obtain ⟨m1, heq, hrob, hpend, hctx, hcb, htr⟩ :=
      runHaltConnUnits_sync m.robot.connections
        { m with haltConnJoin := ⟨m.robot.connections.length, 0, none⟩ }
        (fun c hx => hc c hx)
        (by
          show m.robot.connections.length = 0 + m.robot.connections.length
          omega)
        hcs
    exact ⟨m1, heq, hrob, hpend, hctx, hcb, htr⟩

theorem haltDevUnit_sync (d : Device) (m : M) (h : isSyncHalt d = true) :
    haltDevUnit d m = haltDevJoinCb (pushEv (Ev.deviceHaltCalled d.name) m) := by
  cases hb : d.haltBeh with
  | syncOk => simp [haltDevUnit, hb]
  | syncErr e => simp [haltDevUnit, hb]
  | asyncOk => simp [isSyncHalt, hb] at h
  | asyncErr e => simp [isSyncHalt, hb] at h
  | throws e => simp [isSyncHalt, hb] at h
  | never => simp [isSyncHalt, hb] at h

theorem haltDevJoinCb_last (m : M)
    (h : m.haltDevJoin.completed + 1 = m.haltDevJoin.total) :
    haltDevJoinCb m = haltConnsPhase
      { m with haltDevJoin :=
          ⟨m.haltDevJoin.total, m.haltDevJoin.completed + 1, m.haltDevJoin.firstErr⟩ } := by
  simp [haltDevJoinCb, h]

theorem haltDevJoinCb_mid (m : M)
    (h : ¬ m.haltDevJoin.completed + 1 = m.haltDevJoin.total) :
    haltDevJoinCb m = Step.ok
      { m with haltDevJoin :=
          ⟨m.haltDevJoin.total, m.haltDevJoin.completed + 1, m.haltDevJoin.firstErr⟩ } := by
  simp [haltDevJoinCb, h]

theorem runHaltDevUnits_sync :
    ∀ (ds : List Device) (m : M), (∀ d ∈ ds, isSyncHalt d = true) →
      (∀ c ∈ m.robot.connections, isSyncDisc c = true) →
      m.haltDevJoin.total = m.haltDevJoin.completed + ds.length → ds ≠ [] →
      ∃ m1, runHaltDevUnits ds m = Step.ok m1 ∧ m1.robot = m.robot ∧
        m1.pending = m.pending ∧ m1.haltCtx = m.haltCtx ∧
        m1.startCbPresent = m.startCbPresent ∧
        m1.trace = m.trace ++ ds.map (fun d => Ev.deviceHaltCalled d.name) ++
          m.robot.connections.map (fun c => Ev.disconnectCalled c.name) ++
          haltCbEvents m.haltCtx m.robot := by
  intro ds
  induction ds with
  | nil => intro m _ _ _ hne; exact absurd rfl hne
  | cons d rest ih =>
    intro m hsync hconns htot _
    have hd := haltDevUnit_sync d m (hsync d (by simp))
    simp only [List.length_cons] at htot
    simp only [runHaltDevUnits, hd]
    by_cases hrest : rest = []
    · subst hrest
      simp only [List.length_nil] at htot
      have hlast : (pushEv (Ev.deviceHaltCalled d.name) m).haltDevJoin.completed + 1
          = (pushEv (Ev.deviceHaltCalled d.name) m).haltDevJoin.total := by
        show m.haltDevJoin.completed + 1 = m.haltDevJoin.total
        omega
      rw [haltDevJoinCb_last _ hlast]
      obtain ⟨m1, heq, hrob, hpend, hctx, hcb, htr⟩ :=
        haltConnsPhase_sync
          { pushEv (Ev.deviceHaltCalled d.name) m with
              haltDevJoin := ⟨m.haltDevJoin.total, m.haltDevJoin.completed + 1,
                m.haltDevJoin.firstErr⟩ }
          (fun c hx => hconns c hx)
      refine ⟨m1, ?_, hrob, hpend, hctx, hcb, ?_⟩
      · show (haltConnsPhase
            { pushEv (Ev.deviceHaltCalled d.name) m with
                haltDevJoin := ⟨m.haltDevJoin.total, m.haltDevJoin.completed + 1,
                  m.haltDevJoin.firstErr⟩ }).bind (runHaltDevUnits []) = Step.ok m1
        rw [heq]
        rfl
      · rw [htr]
        show (pushEv (Ev.deviceHaltCalled d.name) m).trace ++ _ ++ _ = _
        simp [pushEv]
    · have hlen : rest.length ≠ 0 := fun h => hrest (List.eq_nil_of_length_eq_zero h)
      have hmid : ¬ (pushEv (Ev.deviceHaltCalled d.name) m).haltDevJoin.completed + 1
          = (pushEv (Ev.deviceHaltCalled d.name) m).haltDevJoin.total := by
        show ¬ m.haltDevJoin.completed + 1 = m.haltDevJoin.total
        omega
      rw [haltDevJoinCb_mid _ hmid]
      simp only [Step.bind]
      obtain ⟨m1, heq, hrob, hpend, hctx, hcb, htr⟩ :=
        ih { pushEv (Ev.deviceHaltCalled d.name) m with
              haltDevJoin := ⟨m.haltDevJoin.total, m.haltDevJoin.completed + 1,
                m.haltDevJoin.firstErr⟩ }
          (fun x hx => hsync x (by simp [hx]))
          (fun c hx => hconns c hx)
          (by
            show m.haltDevJoin.total = m.haltDevJoin.completed + 1 + rest.length
            omega)
          hrest
      refine ⟨m1, heq, hrob, hpend, hctx, hcb, ?_⟩
      rw [htr]
      show (pushEv (Ev.deviceHaltCalled d.name) m).trace ++ _ ++ _ ++ _ = _
      simp [pushEv]

theorem haltDevsPhase_sync (m : M) (hd : ∀ d ∈ m.robot.devices, isSyncHalt d = true)
    (hc : ∀ c ∈ m.robot.connections, isSyncDisc c = true) :
    ∃ m1, haltDevsPhase m = Step.ok m1 ∧ m1.robot = m.robot ∧
      m1.pending = m.pending ∧ m1.haltCtx = m.haltCtx ∧
      m1.startCbPresent = m.startCbPresent ∧
      m1.trace = m.trace ++ m.robot.devices.map (fun d => Ev.deviceHaltCalled d.name) ++
        m.robot.connections.map (fun c => Ev.disconnectCalled c.name) ++
        haltCbEvents m.haltCtx m.robot := by
  simp only [haltDevsPhase]
  by_cases hds : m.robot.devices = []
  · rw [if_pos (by simp [hds])]
    obtain ⟨m1, heq, hrob, hpend, hctx, hcb, htr⟩ :=
      haltConnsPhase_sync { m with haltDevJoin := ⟨m.robot.devices.length, 0, none⟩ }
        (fun c hx => hc c hx)
    refine ⟨m1, heq, hrob, hpend, hctx, hcb, ?_⟩
    rw [htr]
    simp [hds]
  · have hlen : ¬ m.robot.devices.length = 0 :=
      fun h => hds (List.eq_nil_of_length_eq_zero h)
    rw [if_neg hlen]
    obtain ⟨m1, heq, hrob, hpend, hctx, hcb, htr⟩ :=
      runHaltDevUnits_sync m.robot.devices
        { m with haltDevJoin := ⟨m.robot.devices.length, 0, none⟩ }
        (fun x hx => hd x hx) (fun c hx => hc c hx)
        (by
          show m.robot.devices.length = 0 + m.robot.devices.length
          omega)
        hds
    exact ⟨m1, heq, hrob, hpend, hctx, hcb, htr⟩

theorem halt_sync (ctx : HaltCtx) (m : M) (hrun : m.robot.running = true)
    (hd : ∀ d ∈ m.robot.devices, isSyncHalt d = true)
    (hc : ∀ c ∈ m.robot.connections, isSyncDisc c = true) :
    (halt ctx m).robot = { m.robot with running := false } ∧
    (halt ctx m).pending = m.pending ∧
    (halt ctx m).startCbPresent = m.startCbPresent ∧
    (halt ctx m).trace = m.trace ++
      m.robot.devices.map (fun d => Ev.deviceHaltCalled d.name) ++
      m.robot.connections.map (fun c => Ev.disconnectCalled c.name) ++
      haltCbEvents ctx m.robot := by
  obtain ⟨m1, heq, hrob, hpend, hctx2, hcb, htr⟩ :=
    haltDevsPhase_sync { m with haltCtx := ctx }
      (fun x hx => hd x hx) (fun c hx => hc c hx)
  have hhalt : halt ctx m = setRunningFalse m1 := by
    simp only [halt, hrun, if_pos]
    rw [heq]
  rw [hhalt]
  refine ⟨?_, ?_, ?_, ?_⟩
  · show { m1.robot with running := false } = { m.robot with running := false }
    rw [show m1.robot = m.robot from hrob]
  · exact hpend
  · exact hcb
  · exact htr

theorem halt_first_throw (ctx : HaltCtx) (m : M) (d1 : Device) (rest : List Device)
    (e : Err) (hrun : m.robot.running = true)
    (hdev : m.robot.devices = d1 :: rest) (hb : d1.haltBeh = Beh.throws e) :
    (halt ctx m).robot = { m.robot with running := false } ∧
    (halt ctx m).pending = m.pending ∧
    (halt ctx m).trace = m.trace ++ [Ev.deviceHaltCalled d1.name,
      Ev.log "An error occured while attempting to safely halt the robot", Ev.log e] := by
  have hphase : haltDevsPhase { m with haltCtx := ctx }
      = Step.ex e (pushEv (Ev.deviceHaltCalled d1.name)
          { m with
              haltCtx := ctx
              haltDevJoin := ⟨m.robot.devices.length, 0, none⟩ }) := by
    simp only [haltDevsPhase]
    rw [show ({ m with haltCtx := ctx } : M).robot.devices = d1 :: rest from hdev]
    rw [if_neg (by simp)]
    simp only [runHaltDevUnits, haltDevUnit, hb, Step.bind]
  simp only [halt, hrun, if_pos]
  rw [hphase]
  refine ⟨rfl, rfl, ?_⟩
  simp [setRunningFalse, pushEv, hdev]

theorem props_seriesFinish (err : Option Err) (m : M) :
    (seriesFinish err m).robot.props = m.robot.props := by
  cases err with
  | none =>
    simp only [seriesFinish]
    split <;> rfl
  | some e =>
    simp only [seriesFinish]
    split <;> simp [pushEv, robot_halt]

theorem props_devJoinCb (err : Option Err) (m : M) :
    (devJoinCb err m).state.robot.props = m.robot.props := by
  simp only [devJoinCb]
  split
  · simp [Step.state, props_seriesFinish]
  · rfl

theorem lookup_bind (n : String) (s : Step) (f : M → Step)
    (hf : ∀ x, lookupProp n (f x).state.robot.props = lookupProp n x.robot.props) :
    lookupProp n (s.bind f).state.robot.props = lookupProp n s.state.robot.props := by
  cases s with
  | ok m => exact hf m
  | ex e m => rfl

theorem lookupProp_startDeviceUnit_ne (n : String) (d : Device) (m : M)
    (hne : d.name ≠ n) :
    lookupProp n (startDeviceUnit d m).state.robot.props
      = lookupProp n m.robot.props := by
  simp only [startDeviceUnit]
  split
  · rw [props_devJoinCb]
  · rw [lookup_bind n _ _ (fun x => by simp [Step.state, setConnConnected, setDevStarted])]
    cases hb : d.startBeh <;>
      simp only [hb] <;>
      first
        | (rw [props_devJoinCb]
           simp [pushEv, setProp, lookupProp_putProp_ne _ hne])
        | simp [Step.state, pushEv, pushTask, setProp, lookupProp_putProp_ne _ hne]

theorem lookupProp_runDevUnits (n : String) :
    ∀ (ds : List Device) (m : M), (∀ d ∈ ds, d.name ≠ n) →
      lookupProp n (runDevUnits ds m).state.robot.props
        = lookupProp n m.robot.props := by
  intro ds
  induction ds with
  | nil => intro m _; rfl
  | cons d rest ih =>
    intro m hnames
    simp only [runDevUnits]
    rw [lookup_bind n _ _ (fun x => ih x (fun y hy => hnames y (by simp [hy])))]
    exact lookupProp_startDeviceUnit_ne n d m (hnames d (by simp))

theorem lookupProp_startDevices (n : String) (m : M)
    (hnames : ∀ d ∈ m.robot.devices, d.name ≠ n) :
    lookupProp n (startDevices m).state.robot.props = lookupProp n m.robot.props := by
  simp only [startDevices]
  split
  · simp [Step.state, props_seriesFinish, pushEv]
  · exact (lookupProp_runDevUnits n _ _ (fun d hd => hnames d hd)).trans rfl

theorem lookupProp_seriesAfterConnections (n : String) (err : Option Err) (m : M)
    (hnames : ∀ d ∈ m.robot.devices, d.name ≠ n) :
    lookupProp n (seriesAfterConnections err m).state.robot.props
      = lookupProp n m.robot.props := by
  cases err with
  | none => exact lookupProp_startDevices n m hnames
  | some e => simp [seriesAfterConnections, Step.state, props_seriesFinish]

theorem lookupProp_connJoinCb (n : String) (err : Option Err) (m : M)
    (hnames : ∀ d ∈ m.robot.devices, d.name ≠ n) :
    lookupProp n (connJoinCb err m).state.robot.props = lookupProp n m.robot.props := by
  simp only [connJoinCb]
  split
  · exact lookupProp_seriesAfterConnections n _ _ (fun d hd => hnames d hd)
  · rfl

/-- C7: on an already-running controller, `start` is an exact no-op: the whole
machine state is returned unchanged, so no connection `connect`, no device
`start` and no handle mutation can occur. -/
theorem start_idempotent_when_running (mode : String) (cb : Bool) (m : M)
    (h : m.robot.running = true) : start mode cb m = m := by
  simp [start, h]

theorem start_idempotent_when_running_witness :
    (mkM rScenSync).robot.running = true ∧
    start "async" true (mkM rScenSync) = mkM rScenSync :=
  ⟨rfl, start_idempotent_when_running "async" true (mkM rScenSync) rfl⟩

/-- C6: `halt` on a running controller sets `running` to `false`
unconditionally — for every controller, every halt-callback context and every
combination of device/connection behaviours — and in particular when the first
device's halt throws synchronously, in which case the throw is caught, the
top-level halt failure and the error are logged, and `running` still becomes
`false`. -/
theorem halt_running_false_unconditional :
    (∀ (ctx : HaltCtx) (m : M), m.robot.running = true →
      (halt ctx m).robot.running = false) ∧
    (∀ (ctx : HaltCtx) (m : M) (d1 : Device) (rest : List Device) (e : Err),
      m.robot.running = true → m.robot.devices = d1 :: rest →
      d1.haltBeh = Beh.throws e →
      (halt ctx m).robot.running = false ∧
      (halt ctx m).trace = m.trace ++ [Ev.deviceHaltCalled d1.name,
        Ev.log "An error occured while attempting to safely halt the robot",
        Ev.log e]) := by
  constructor
  · intro ctx m _
    rw [robot_halt]
  · intro ctx m d1 rest e hrun hdev hb
    obtain ⟨hrob, _, htr⟩ := halt_first_throw ctx m d1 rest e hrun hdev hb
    exact ⟨by rw [hrob], htr⟩

theorem halt_running_false_unconditional_witness :
    ((halt HaltCtx.user (mkM rScenSync)).robot.running = false) ∧
    ((halt HaltCtx.user (mkM rScenThrow)).robot.running = false ∧
      (halt HaltCtx.user (mkM rScenThrow)).trace = (mkM rScenThrow).trace ++
        [Ev.deviceHaltCalled "d1",
         Ev.log "An error occured while attempting to safely halt the robot",
         Ev.log "boom"]) :=
  ⟨halt_running_false_unconditional.1 HaltCtx.user (mkM rScenSync) rfl,
   halt_running_false_unconditional.2 HaltCtx.user (mkM rScenThrow)
     ⟨"d1", some "c1", true, none, Beh.syncOk, Beh.throws "boom"⟩
     [⟨"d2", some "c1", true, none, Beh.syncOk, Beh.syncOk⟩] "boom" rfl rfl rfl⟩

/-- C2 (counterexample): on a running controller with two devices where the
first device's halt throws synchronously, the second device's halt is NOT
invoked, no connection disconnect is invoked, and the halt callback never
fires — contradicting the claim that every remaining unit still runs and the
callback still eventually fires. -/
theorem halt_throw_skips_rest_counterexample :
    Ev.deviceHaltCalled "d1" ∈ (halt HaltCtx.user (mkM rScenThrow)).trace ∧
    Ev.deviceHaltCalled "d2" ∉ (halt HaltCtx.user (mkM rScenThrow)).trace ∧
    Ev.disconnectCalled "c1" ∉ (halt HaltCtx.user (mkM rScenThrow)).trace ∧
    Ev.haltCallback ∉ (halt HaltCtx.user (mkM rScenThrow)).trace ∧
    (halt HaltCtx.user (mkM rScenThrow)).robot.running = false := by
  decide

/-- C2 (amended): errors REPORTED through callbacks by halt/disconnect units
are swallowed by the per-unit wrapper: with synchronously completing units
(successful or not) every device halt and every connection disconnect is
invoked, devices first, and the halt callback fires.  A synchronous THROW from
the first device's halt, however, aborts the phase: remaining units are not
invoked, the throw is caught and logged at top level, the callback does not
fire, and `running` is still set to false. -/
theorem halt_unit_error_handling :
    (∀ (m : M), m.robot.running = true →
      (∀ d ∈ m.robot.devices, isSyncHalt d = true) →
      (∀ c ∈ m.robot.connections, isSyncDisc c = true) →
      (halt HaltCtx.user m).trace = m.trace ++
        m.robot.devices.map (fun d => Ev.deviceHaltCalled d.name) ++
        m.robot.connections.map (fun c => Ev.disconnectCalled c.name) ++
        [Ev.haltCallback] ∧
      (halt HaltCtx.user m).robot.running = false) ∧
    (∀ (m : M) (d1 : Device) (rest : List Device) (e : Err),
      m.robot.running = true → m.robot.devices = d1 :: rest →
      d1.haltBeh = Beh.throws e →
      (halt HaltCtx.user m).trace = m.trace ++ [Ev.deviceHaltCalled d1.name,
        Ev.log "An error occured while attempting to safely halt the robot",
        Ev.log e] ∧
      (halt HaltCtx.user m).robot.running = false) := by
  constructor
  · intro m hrun hd hc
    obtain ⟨hrob, _, _, htr⟩ := halt_sync HaltCtx.user m hrun hd hc
    exact ⟨htr, by rw [hrob]⟩
  · intro m d1 rest e hrun hdev hb
    obtain ⟨hrob, _, htr⟩ := halt_first_throw HaltCtx.user m d1 rest e hrun hdev hb
    exact ⟨htr, by rw [hrob]⟩

theorem halt_unit_error_handling_witness :
    ((halt HaltCtx.user (mkM rScenSync)).trace =
      [Ev.deviceHaltCalled "d1", Ev.deviceHaltCalled "d2",
       Ev.disconnectCalled "c1", Ev.haltCallback] ∧
      (halt HaltCtx.user (mkM rScenSync)).robot.running = false) ∧
    ((halt HaltCtx.user (mkM rScenThrow)).trace =
      [Ev.deviceHaltCalled "d1",
       Ev.log "An error occured while attempting to safely halt the robot",
       Ev.log "boom"] ∧
      (halt HaltCtx.user (mkM rScenThrow)).robot.running = false) := by
  refine ⟨⟨?_, ?_⟩, ?_, ?_⟩
  · exact ((halt_unit_error_handling.1 (mkM rScenSync) rfl (by decide)
      (by decide)).1).trans (by decide)
  · exact (halt_unit_error_handling.1 (mkM rScenSync) rfl (by decide) (by decide)).2
  · exact ((halt_unit_error_handling.2 (mkM rScenThrow)
      ⟨"d1", some "c1", true, none, Beh.syncOk, Beh.throws "boom"⟩
      [⟨"d2", some "c1", true, none, Beh.syncOk, Beh.syncOk⟩]
      "boom" rfl rfl rfl).1).trans (by decide)
  · exact (halt_unit_error_handling.2 (mkM rScenThrow)
      ⟨"d1", some "c1", true, none, Beh.syncOk, Beh.throws "boom"⟩
      [⟨"d2", some "c1", true, none, Beh.syncOk, Beh.syncOk⟩]
      "boom" rfl rfl rfl).2

/-- C4 (counterexample): when the halt sequence triggered by a phase error
completes asynchronously, the original `start` callback fires strictly BEFORE
the local error handler and before the `error` event dispatch — the callback
is invoked right after `halt` is initiated, not from inside its completion
callback, contradicting the claimed handler → event → callback order. -/
theorem start_error_callback_first_counterexample :
    Ev.startCallback (some "efail")
      ∈ (eventLoop 10 (start "async" true (mkM rScenErr))).trace ∧
    Ev.errorHandlerCalled "efail"
      ∈ (eventLoop 10 (start "async" true (mkM rScenErr))).trace ∧
    Ev.emitError "efail"
      ∈ (eventLoop 10 (start "async" true (mkM rScenErr))).trace ∧
    (eventLoop 10 (start "async" true (mkM rScenErr))).trace.indexOf
        (Ev.startCallback (some "efail"))
      < (eventLoop 10 (start "async" true (mkM rScenErr))).trace.indexOf
        (Ev.errorHandlerCalled "efail") ∧
    (eventLoop 10 (start "async" true (mkM rScenErr))).trace.indexOf
        (Ev.startCallback (some "efail"))
      < (eventLoop 10 (start "async" true (mkM rScenErr))).trace.indexOf
        (Ev.emitError "efail") := by
  decide

/-- C4 (amended): when a start phase reports an error, the controller logs the
error, runs the halt sequence, and — when halt completes synchronously — the
local error handler (if defined) runs next, then the `error` event is
dispatched (if listeners are registered), then the original start callback is
invoked with the error, in exactly that order; the start callback is issued
synchronously right after `halt` is initiated, so this order holds only when
the halt units complete synchronously. -/
theorem start_error_path_order (m : M) (e : Err)
    (hrun : m.robot.running = true) (hcb : m.startCbPresent = true)
    (hd : ∀ d ∈ m.robot.devices, isSyncHalt d = true)
    (hc : ∀ c ∈ m.robot.connections, isSyncDisc c = true) :
    (seriesFinish (some e) m).trace = m.trace ++
      [Ev.log "An error occured while trying to start the robot:", Ev.log e] ++
      m.robot.devices.map (fun d => Ev.deviceHaltCalled d.name) ++
      m.robot.connections.map (fun c => Ev.disconnectCalled c.name) ++
      ((if m.robot.hasErrorHandler then [Ev.errorHandlerCalled e] else []) ++
        (if m.robot.errorListenerCount > 0 then [Ev.emitError e] else [])) ++
      [Ev.startCallback (some e)] := by
  obtain ⟨hrob, hpend, hcbp, htr⟩ :=
    halt_sync (HaltCtx.fromStart e)
      (pushEv (Ev.log e)
        (pushEv (Ev.log "An error occured while trying to start the robot:") m))
      hrun (fun d hd2 => hd d hd2) (fun c hc2 => hc c hc2)
  have hcb2 : (halt (HaltCtx.fromStart e)
      (pushEv (Ev.log e)
        (pushEv (Ev.log "An error occured while trying to start the robot:") m))
      ).startCbPresent = true := hcbp.trans hcb
  simp only [seriesFinish]
  rw [if_pos hcb2]
  have tpe : ∀ (ev : Ev) (x : M), (pushEv ev x).trace = x.trace ++ [ev] :=
    fun _ _ => rfl
  rw [tpe, htr]
  simp [pushEv, haltCbEvents, List.append_assoc]

theorem start_error_path_order_witness :
    (seriesFinish (some "boom")
        { mkM rScenSync with startCbPresent := true }).trace =
      [Ev.log "An error occured while trying to start the robot:",
       Ev.log "boom", Ev.deviceHaltCalled "d1", Ev.deviceHaltCalled "d2",
       Ev.disconnectCalled "c1", Ev.errorHandlerCalled "boom",
       Ev.emitError "boom", Ev.startCallback (some "boom")] :=
  (start_error_path_order { mkM rScenSync with startCbPresent := true } "boom"
    rfl rfl (by decide) (by decide)).trans (by decide)

/-- C1: in the default `async` work mode, on a controller whose single
connection and single device both succeed asynchronously, `start` emits
`ready` exactly once, before the work routine runs, and `running` is true
after the start callback fires — but the work routine is invoked BEFORE the
device phase even begins (and before the start callback), because `startWork`
is called synchronously at the end of `start` rather than after the two phase
barriers. -/
theorem start_async_work_before_barriers :
    (eventLoop 10 (start "async" true (mkM rScenAsync))).trace =
      [Ev.log "Starting connections.", Ev.log "Starting connection c1.",
       Ev.connectCalled "c1", Ev.log "Working.", Ev.emitReady, Ev.workInvoked,
       Ev.log "Starting devices.", Ev.log "Starting device d1.",
       Ev.deviceStartCalled "d1", Ev.startCallback none] ∧
    (eventLoop 10 (start "async" true (mkM rScenAsync))).robot.running = true ∧
    (eventLoop 10 (start "async" true (mkM rScenAsync))).trace.count
      Ev.emitReady = 1 ∧
    (eventLoop 10 (start "async" true (mkM rScenAsync))).trace.indexOf
        Ev.emitReady
      < (eventLoop 10 (start "async" true (mkM rScenAsync))).trace.indexOf
        Ev.workInvoked ∧
    (eventLoop 10 (start "async" true (mkM rScenAsync))).trace.indexOf
        Ev.workInvoked
      < (eventLoop 10 (start "async" true (mkM rScenAsync))).trace.indexOf
        (Ev.deviceStartCalled "d1") := by
  decide

/-- C3 (counterexample): registering a device whose spec names an absent
connection emits the process interrupt exactly once, but the device is
nonetheless constructed and stored in the devices map with a dangling
(undefined) connection reference — so device construction does not fail and
the map invariant does not hold in-process. -/
theorem device_missing_connection_counterexample :
    ((device "dX" ⟨some "nope", none, Beh.syncOk, Beh.syncOk⟩ rScenReg).2.count
      Ev.sigint = 1) ∧
    lookupDev "dX"
        (device "dX" ⟨some "nope", none, Beh.syncOk, Beh.syncOk⟩ rScenReg).1
      = some ⟨"dX", none, false, none, Beh.syncOk, Beh.syncOk⟩ := by
  decide

/-- C3 (amended): for every device registration naming an absent connection,
the missing-connection line is logged and the process-level interrupt is
emitted exactly once; the device is still added to the devices map, with an
undefined connection reference (termination is delegated to an external
interrupt handler, outside this controller). -/
theorem device_missing_connection_sigint (r : Robot) (nm cn : String)
    (spec : DeviceSpec) (h1 : spec.connection = some cn)
    (h2 : lookupConn cn r = none) (h3 : nm ∉ devKeys r) :
    (device nm spec r).2 =
      [Ev.log ("No connection found with the name " ++ cn ++ ".\n"), Ev.sigint] ∧
    (device nm spec r).1.devices = r.devices ++
      [⟨nm, none, false, spec.pin, spec.startBeh, spec.haltBeh⟩] := by
  simp [device, h1, h2, h3]

theorem device_missing_connection_sigint_witness :
    (device "dX" ⟨some "nope", none, Beh.asyncOk, Beh.never⟩ rScenReg).2 =
      [Ev.log "No connection found with the name nope.\n", Ev.sigint] ∧
    (device "dX" ⟨some "nope", none, Beh.asyncOk, Beh.never⟩ rScenReg).1.devices =
      rScenReg.devices ++ [⟨"dX", none, false, none, Beh.asyncOk, Beh.never⟩] := by
  have h := device_missing_connection_sigint rScenReg "dX" "nope"
    ⟨some "nope", none, Beh.asyncOk, Beh.never⟩ rfl (by decide) (by decide)
  exact ⟨h.1.trans (by decide), h.2⟩

/-- C5: registering a connection or a device under a name already present in
the respective map renames the new entry to the original name with the
smallest unused dashed integer suffix, logs the rename, and leaves both the
original name and the fresh name present, with the key list still free of
duplicates. -/
theorem registration_rename_unique :
    (∀ (r : Robot) (nm : String) (spec : ConnSpec),
      nm ∈ connKeys r → (connKeys r).Nodup →
      ∃ k, 0 < k ∧
        connKeys (connection nm spec r).1 = connKeys r ++ [suffixName nm k] ∧
        Ev.log ("Connection names must be unique.Renaming " ++ nm ++ " to "
          ++ suffixName nm k) ∈ (connection nm spec r).2 ∧
        nm ∈ connKeys (connection nm spec r).1 ∧
        suffixName nm k ∈ connKeys (connection nm spec r).1 ∧
        suffixName nm k ∉ connKeys r ∧
        (connKeys (connection nm spec r).1).Nodup ∧
        (∀ j, 0 < j → j < k → suffixName nm j ∈ connKeys r)) ∧
    (∀ (r : Robot) (nm : String) (spec : DeviceSpec),
      nm ∈ devKeys r → (devKeys r).Nodup →
      ∃ k, 0 < k ∧
        devKeys (device nm spec r).1 = devKeys r ++ [suffixName nm k] ∧
        Ev.log ("Device names must be unique.Renaming " ++ nm ++ " to "
          ++ suffixName nm k) ∈ (device nm spec r).2 ∧
        nm ∈ devKeys (device nm spec r).1 ∧
        suffixName nm k ∈ devKeys (device nm spec r).1 ∧
        suffixName nm k ∉ devKeys r ∧
        (devKeys (device nm spec r).1).Nodup ∧
        (∀ j, 0 < j → j < k → suffixName nm j ∈ devKeys r)) := by
  constructor
  · intro r nm spec hmem hnodup
    obtain ⟨k, hk0, heq, hfree, hmin⟩ := makeUnique_spec nm (connKeys r)
    have hkeys : connKeys (connection nm spec r).1
        = connKeys r ++ [suffixName nm k] := by
      simp only [connection, if_pos hmem, heq]
      simp [connKeys]
    have hlog : Ev.log ("Connection names must be unique.Renaming " ++ nm ++ " to "
        ++ suffixName nm k) ∈ (connection nm spec r).2 := by
      simp [connection, if_pos hmem, heq]
    refine ⟨k, hk0, hkeys, hlog, ?_, ?_, hfree, ?_, hmin⟩
    · rw [hkeys]
      exact List.mem_append_left _ hmem
    · rw [hkeys]
      simp
    · rw [hkeys]
      simp [List.nodup_append, hnodup, hfree]
  · intro r nm spec hmem hnodup
    obtain ⟨k, hk0, heq, hfree, hmin⟩ := makeUnique_spec nm (devKeys r)
    have hkeys : devKeys (device nm spec r).1
        = devKeys r ++ [suffixName nm k] := by
      simp only [device, if_pos hmem, heq]
      simp [devKeys]
    have hlog : Ev.log ("Device names must be unique.Renaming " ++ nm ++ " to "
        ++ suffixName nm k) ∈ (device nm spec r).2 := by
      simp [device, if_pos hmem, heq]
    refine ⟨k, hk0, hkeys, hlog, ?_, ?_, hfree, ?_, hmin⟩
    · rw [hkeys]
      exact List.mem_append_left _ hmem
    · rw [hkeys]
      simp
    · rw [hkeys]
      simp [List.nodup_append, hnodup, hfree]

theorem registration_rename_unique_witness :
    (∃ k, 0 < k ∧
      connKeys (connection "a" ⟨none, none, Beh.syncOk, Beh.syncOk⟩ rScenReg).1
        = connKeys rScenReg ++ [suffixName "a" k] ∧
      Ev.log ("Connection names must be unique.Renaming " ++ "a" ++ " to "
        ++ suffixName "a" k)
        ∈ (connection "a" ⟨none, none, Beh.syncOk, Beh.syncOk⟩ rScenReg).2 ∧
      "a" ∈ connKeys (connection "a" ⟨none, none, Beh.syncOk, Beh.syncOk⟩ rScenReg).1 ∧
      suffixName "a" k
        ∈ connKeys (connection "a" ⟨none, none, Beh.syncOk, Beh.syncOk⟩ rScenReg).1 ∧
      suffixName "a" k ∉ connKeys rScenReg ∧
      (connKeys (connection "a" ⟨none, none, Beh.syncOk, Beh.syncOk⟩ rScenReg).1).Nodup ∧
      (∀ j, 0 < j → j < k → suffixName "a" j ∈ connKeys rScenReg)) ∧
    (∃ k, 0 < k ∧
      devKeys (device "d" ⟨none, none, Beh.syncOk, Beh.syncOk⟩ rScenReg).1
        = devKeys rScenReg ++ [suffixName "d" k] ∧
      Ev.log ("Device names must be unique.Renaming " ++ "d" ++ " to "
        ++ suffixName "d" k)
        ∈ (device "d" ⟨none, none, Beh.syncOk, Beh.syncOk⟩ rScenReg).2 ∧
      "d" ∈ devKeys (device "d" ⟨none, none, Beh.syncOk, Beh.syncOk⟩ rScenReg).1 ∧
      suffixName "d" k
        ∈ devKeys (device "d" ⟨none, none, Beh.syncOk, Beh.syncOk⟩ rScenReg).1 ∧
      suffixName "d" k ∉ devKeys rScenReg ∧
      (devKeys (device "d" ⟨none, none, Beh.syncOk, Beh.syncOk⟩ rScenReg).1).Nodup ∧
      (∀ j, 0 < j → j < k → suffixName "d" j ∈ devKeys rScenReg)) :=
  ⟨registration_rename_unique.1 rScenReg "a" ⟨none, none, Beh.syncOk, Beh.syncOk⟩
      (by decide) (by decide),
   registration_rename_unique.2 rScenReg "d" ⟨none, none, Beh.syncOk, Beh.syncOk⟩
      (by decide) (by decide)⟩

/-- C8: a device registered without a connection name binds its connection
reference to the connection with the earliest insertion order in the
controller's connection map (its head). -/
theorem device_default_connection_binding (r : Robot) (nm : String)
    (spec : DeviceSpec) (c : Conn) (rest : List Conn)
    (h1 : spec.connection = none) (h2 : r.connections = c :: rest) :
    ∃ fn, (device nm spec r).1.devices = r.devices ++
      [⟨fn, some c.name, false, spec.pin, spec.startBeh, spec.haltBeh⟩] := by
  refine ⟨if nm ∈ devKeys r then makeUnique nm (devKeys r) else nm, ?_⟩
  simp [device, h1, h2]

theorem device_default_connection_binding_witness :
    ∃ fn, (device "dY" ⟨none, some 13, Beh.syncOk, Beh.syncOk⟩ rScenReg).1.devices
      = rScenReg.devices ++ [⟨fn, some "a", false, some 13, Beh.syncOk, Beh.syncOk⟩] :=
  device_default_connection_binding rScenReg "dY"
    ⟨none, some 13, Beh.syncOk, Beh.syncOk⟩
    ⟨"a", false, none, none, Beh.syncOk, Beh.syncOk⟩ [] rfl rfl

theorem ctorStep_fold :
    ∀ (pairs : List (String × OptVal)) (defined cmds : List String),
      (pairs.map Prod.fst).Nodup →
      (∀ n, n ∈ pairs.map Prod.fst → (n ∈ defined ↔ n ∈ reservedNames)) →
      (pairs.foldl (ctorStep false) (defined, cmds)).2 =
        cmds ++ (pairs.filter
          (fun p => decide (p.2 = OptVal.callable ∧ p.1 ∉ reservedNames))).map
            Prod.fst := by
  intro pairs
  induction pairs with
  | nil => intro defined cmds _ _; simp
  | cons p rest ih =>
    intro defined cmds hnodup hinv
    obtain ⟨n, v⟩ := p
    simp only [List.map_cons, List.nodup_cons] at hnodup
    have hn := hinv n (by simp)
    simp only [List.foldl_cons, ctorStep]
    by_cases hr : n ∈ reservedNames
    · have hdef : n ∈ defined := hn.2 hr
      rw [if_pos hdef]
      rw [ih defined cmds hnodup.2 (fun x hx => hinv x (by simp [hx]))]
      simp [hr]
    · have hdef : n ∉ defined := fun h => hr (hn.1 h)
      rw [if_neg hdef]
      have hinv2 : ∀ x, x ∈ rest.map Prod.fst → (x ∈ n :: defined ↔ x ∈ reservedNames) := by
        intro x hx
        have hxn : x ≠ n := fun h => hnodup.1 (h ▸ hx)
        simp only [List.mem_cons, hxn, false_or]
        exact hinv x (by simp [hx])
      by_cases hv : v = OptVal.callable
      · rw [if_pos ⟨hv, by simp⟩]
        rw [ih (n :: defined) (cmds ++ [n]) hnodup.2 hinv2]
        simp [hv, hr]
      · rw [if_neg (fun hcon => hv hcon.1)]
        rw [ih (n :: defined) cmds hnodup.2 hinv2]
        simp [hv]

/-- C9 (counterexample): a callable-valued configuration key is NOT included
in the command list when an explicit `commands` mapping is supplied — the
explicit mapping replaces the command table, so the list is exactly that
mapping's keys. -/
theorem toJSON_commands_explicit_excludes_counterexample :
    ctorCommands [("foo", OptVal.callable)]
        (some (CmdsSpec.obj [("bar", OptVal.callable)])) = some ["bar"] ∧
    ("foo" : String) ∉ (["bar"] : List String) ∧
    ("foo", OptVal.callable) ∈ [("foo", OptVal.callable)] ∧
    "foo" ∉ reservedNames := by
  decide

/-- C9 (amended): with no `commands` value, the command list enumerated by
`toJSON` consists of exactly the callable-valued configuration keys not
already consumed as controller state or methods (so every non-callable key is
excluded); with an explicit `commands` mapping, or a callable returning one,
the list is exactly that mapping's keys and callable configuration keys are
excluded; a falsy non-null `commands` value (such as `0`) suppresses the
auto-add without replacing anything or throwing, leaving the command list
empty; only a truthy value that yields no mapping fails construction. -/
theorem toJSON_commands_characterization :
    (∀ (pairs : List (String × OptVal)), (pairs.map Prod.fst).Nodup →
      ctorCommands pairs none = some ((pairs.filter
        (fun p => decide (p.2 = OptVal.callable ∧ p.1 ∉ reservedNames))).map
          Prod.fst)) ∧
    (∀ (pairs ms : List (String × OptVal)),
      ctorCommands pairs (some (CmdsSpec.obj ms)) = some (ms.map Prod.fst)) ∧
    (∀ (pairs ms : List (String × OptVal)),
      ctorCommands pairs (some (CmdsSpec.viaFn ms)) = some (ms.map Prod.fst)) ∧
    (∀ (pairs : List (String × OptVal)),
      ctorCommands pairs (some CmdsSpec.falsy) = some []) ∧
    (∀ (pairs : List (String × OptVal)),
      ctorCommands pairs (some CmdsSpec.invalid) = none) := by
  refine ⟨?_, fun _ _ => rfl, fun _ _ => rfl, fun _ => rfl, fun _ => rfl⟩
  intro pairs hnodup
  simp only [ctorCommands, Option.isSome_none]
  rw [ctorStep_fold pairs reservedNames [] hnodup (fun n _ => Iff.rfl)]
  simp

theorem toJSON_commands_characterization_witness :
    ctorCommands [("foo", OptVal.callable), ("port", OptVal.scalar)] none
      = some ["foo"] :=
  (toJSON_commands_characterization.1
    [("foo", OptVal.callable), ("port", OptVal.scalar)] (by decide)).trans
    (by decide)

/-- C10: when a start-phase unit runs for a connection not yet marked
connected (respectively a device not yet marked started), the handle is
assigned as a direct controller property under the handle's own name,
overwriting whatever binding that name previously had — for every prior
property table.  (For a connection unit, devices may be assigned later in the
same synchronous cascade, so the connection's name is required not to collide
with a device name.) -/
theorem start_unit_assigns_handle_property :
    (∀ (m : M) (d : Device), d.started = false →
      lookupProp d.name (startDeviceUnit d m).state.robot.props
        = some (PropV.devHandle d.name)) ∧
    (∀ (m : M) (c : Conn), c.connected = false →
      (∀ d ∈ m.robot.devices, d.name ≠ c.name) →
      lookupProp c.name (startConnectionUnit c m).state.robot.props
        = some (PropV.connHandle c.name)) := by
  constructor
  · intro m d hst
    simp only [startDeviceUnit]
    rw [if_neg (by simp [hst])]
    rw [lookup_bind d.name _ _ (fun x => by simp [Step.state, setDevStarted])]
    cases hb : d.startBeh with
    | syncOk =>
      exact (congrArg (lookupProp d.name) (props_devJoinCb none _)).trans
        (by simp [pushEv, setProp, lookupProp_putProp_self])
    | syncErr e =>
      exact (congrArg (lookupProp d.name) (props_devJoinCb (some e) _)).trans
        (by simp [pushEv, setProp, lookupProp_putProp_self])
    | asyncOk =>
      simp [Step.state, pushTask, pushEv, setProp, lookupProp_putProp_self]
    | asyncErr e =>
      simp [Step.state, pushTask, pushEv, setProp, lookupProp_putProp_self]
    | throws e =>
      simp [Step.state, pushEv, setProp, lookupProp_putProp_self]
    | never =>
      simp [Step.state, pushEv, setProp, lookupProp_putProp_self]
  · intro m c hcn hnames
    simp only [startConnectionUnit]
    rw [if_neg (by simp [hcn])]
    rw [lookup_bind c.name _ _ (fun x => by simp [Step.state, setConnConnected])]
    cases hb : c.connectBeh with
    | syncOk =>
      have h1 := lookupProp_connJoinCb c.name none
        (pushEv (Ev.connectCalled c.name) (setProp c.name (PropV.connHandle c.name)
          (pushEv (Ev.log ("Starting connection " ++ c.name ++
            (match c.host with
              | some h => " on host " ++ h
              | none => match c.port with
                | some p => " on port " ++ p
                | none => "") ++ ".")) m)))
        (fun d hd => hnames d hd)
      exact h1.trans (by simp [pushEv, setProp, lookupProp_putProp_self])
    | syncErr e =>
      have h1 := lookupProp_connJoinCb c.name (some e)
        (pushEv (Ev.connectCalled c.name) (setProp c.name (PropV.connHandle c.name)
          (pushEv (Ev.log ("Starting connection " ++ c.name ++
            (match c.host with
              | some h => " on host " ++ h
              | none => match c.port with
                | some p => " on port " ++ p
                | none => "") ++ ".")) m)))
        (fun d hd => hnames d hd)
      exact h1.trans (by simp [pushEv, setProp, lookupProp_putProp_self])
    | asyncOk =>
      simp [Step.state, pushTask, pushEv, setProp, lookupProp_putProp_self]
    | asyncErr e =>
      simp [Step.state, pushTask, pushEv, setProp, lookupProp_putProp_self]
    | throws e =>
      simp [Step.state, pushEv, setProp, lookupProp_putProp_self]
    | never =>
      simp [Step.state, pushEv, setProp, lookupProp_putProp_self]

theorem start_unit_assigns_handle_property_witness :
    lookupProp "dZ" (startDeviceUnit
        ⟨"dZ", some "a", false, none, Beh.asyncOk, Beh.syncOk⟩
        (mkM rScenReg)).state.robot.props = some (PropV.devHandle "dZ") ∧
    lookupProp "cZ" (startConnectionUnit
        ⟨"cZ", false, none, none, Beh.asyncOk, Beh.syncOk⟩
        (mkM rScenReg)).state.robot.props = some (PropV.connHandle "cZ") :=
  ⟨start_unit_assigns_handle_property.1 (mkM rScenReg)
      ⟨"dZ", some "a", false, none, Beh.asyncOk, Beh.syncOk⟩ rfl,
   start_unit_assigns_handle_property.2 (mkM rScenReg)
      ⟨"cZ", false, none, none, Beh.asyncOk, Beh.syncOk⟩ rfl (by decide)⟩

end Cylon
